import Mathlib

/-!
Verification of the price-comparison backend (backend/server.js,
class PriceComparisonServer) against its design document.

The JavaScript source is shallowly embedded: JS numbers appearing as product
prices are modelled as natural numbers (every price in the claims is a
natural number or null), JS strings as Lean strings over their character
lists, thrown errors as Except values, and the cooperatively-scheduled
browser pool as an explicit state machine whose steps are the synchronous
critical sections of the source (no await occurs inside any of them).
-/

namespace SalesExt

/-! ### Products (shape produced by the site scrapers) -/

/-- A scraped product record: `{ platform, name, price, image, rating, link }`.
`price` and `rating` are nullable JS numbers, modelled as `Option Nat`
(all prices relevant to the claims are naturals); `image` and `link` are
nullable strings. -/
structure Product where
  platform : String
  name : String
  price : Option Nat
  image : Option String
  rating : Option Nat
  link : Option String
deriving DecidableEq, Repr

/-- JS template interpolation of a nullable number:
a number prints its decimal digits, null prints as the string null. -/
def jsPriceString : Option Nat → String
  | none => "null"
  | some n => toString n

/-- JS String.prototype.toLowerCase (ASCII range, which covers the claims),
mapped over the character list. -/
def jsToLower (s : String) : String := ⟨s.data.map Char.toLower⟩

/-- JS String.prototype.substring(0, n): the first n characters. -/
def jsSubstring (n : Nat) (s : String) : String := ⟨s.data.take n⟩

/-- Dedup key from deduplicateAndSort (line 942):
name lower-cased, truncated to 50 characters, a dash, then the price value. -/
def dedupKey (p : Product) : String :=
  jsSubstring 50 (jsToLower p.name) ++ "-" ++ jsPriceString p.price

/-- The forEach loop of deduplicateAndSort (lines 938-947): walk the list,
keep a product only when its key has not been seen yet. -/
def dedup : List Product → List String → List Product
  | [], _ => []
  | p :: ps, seen =>
    if dedupKey p ∈ seen then dedup ps seen
    else p :: dedup ps (dedupKey p :: seen)

/-- The comparator key of the sort (line 950): a.price || 999999.
JS || replaces every falsy price — null, undefined and the number 0 —
by the sentinel 999999. -/
def priceOrSentinel : Option Nat → Nat
  | none => 999999
  | some n => if n = 0 then 999999 else n

/-- The sort order of unique.sort((a, b) => (a.price || 999999) - (b.price || 999999)). -/
def priceLE (a b : Product) : Prop :=
  priceOrSentinel a.price ≤ priceOrSentinel b.price

instance : DecidableRel priceLE := fun a b =>
  Nat.decLe (priceOrSentinel a.price) (priceOrSentinel b.price)

instance : IsTotal Product priceLE :=
  ⟨fun a b => Nat.le_total (priceOrSentinel a.price) (priceOrSentinel b.price)⟩

instance : IsTrans Product priceLE := ⟨fun _ _ _ hab hbc => Nat.le_trans hab hbc⟩

/-- Array.prototype.sort with the price comparator: a stable sort by
`priceLE` (the ECMAScript specification requires sort to be stable). -/
def sortProducts (l : List Product) : List Product :=
  l.insertionSort priceLE

/-- deduplicateAndSort (lines 936-951): drop later products with an
already-seen key, then stable-sort ascending by price-or-sentinel. -/
def deduplicateAndSort (products : List Product) : List Product :=
  sortProducts (dedup products [])

/-! ### Concrete products used in the claims -/

def exPhoneX : Product := ⟨"Amazon", "Phone X", some 100, none, none, none⟩

def exPhoneX2 : Product := ⟨"Flipkart", "Phone X", some 100, none, none, none⟩

def exPhoneY : Product := ⟨"Amazon", "Phone Y", some 50, none, none, none⟩

def exNull1 : Product := ⟨"Amazon", "na", none, none, none, none⟩

def exTen : Product := ⟨"Amazon", "nb", some 10, none, none, none⟩

def exNull2 : Product := ⟨"Amazon", "nc", none, none, none, none⟩

def exMillion : Product := ⟨"Amazon", "big", some 1000000, none, none, none⟩

def exZero : Product := ⟨"Amazon", "zp", some 0, none, none, none⟩

def exZeroNull : Product := ⟨"Amazon", "zp", none, none, none, none⟩

def exFive : Product := ⟨"Amazon", "fp", some 5, none, none, none⟩

def exTie : Product := ⟨"Amazon", "tp", some 999999, none, none, none⟩

/-! ### Deduplicator lemmas -/

/-- Elements of a given key surviving `dedup`: exactly the first element of
the input carrying that key, provided the key was not seen before. -/
theorem dedup_filter (k : String) :
    ∀ (l : List Product) (seen : List String),
    (dedup l seen).filter (fun p => dedupKey p == k) =
      if k ∈ seen then [] else (l.filter (fun p => dedupKey p == k)).take 1
  | [], seen => by
    by_cases hk : k ∈ seen <;> simp [dedup, hk]
  | p :: ps, seen => by
    rw [dedup]
    by_cases hp : dedupKey p ∈ seen
    · rw [if_pos hp, dedup_filter k ps seen]
      by_cases hk : k ∈ seen
      · simp [hk]
      · have hne : dedupKey p ≠ k := fun h => hk (h ▸ hp)
        simp [hk, List.filter_cons, hne]
    · rw [if_neg hp]
      by_cases hpk : dedupKey p = k
      · subst hpk
        rw [List.filter_cons_of_pos (by simp)]
        rw [dedup_filter (dedupKey p) ps (dedupKey p :: seen)]
        simp [hp, List.filter_cons]
      · rw [List.filter_cons_of_neg (by simp [hpk])]
        rw [dedup_filter k ps (dedupKey p :: seen)]
        have hcons : (k ∈ dedupKey p :: seen) ↔ k ∈ seen := by
          simp only [List.mem_cons, or_iff_right_iff_imp]
          intro h
          exact absurd h.symm hpk
        by_cases hk : k ∈ seen
        · simp [hk, hcons, List.filter_cons, hpk]
        · simp [hk, hcons, List.filter_cons, hpk]

/-- `dedup` only erases elements; it never reorders or invents them. -/
theorem dedup_sublist : ∀ (l : List Product) (seen : List String), List.Sublist (dedup l seen) l
  | [], _ => List.Sublist.refl _
  | p :: ps, seen => by
    rw [dedup]
    by_cases hp : dedupKey p ∈ seen
    · rw [if_pos hp]
      exact (dedup_sublist ps seen).trans (List.sublist_cons_self p ps)
    · rw [if_neg hp]
      exact List.Sublist.cons₂ p (dedup_sublist ps (dedupKey p :: seen))

/-! ### Sorter lemmas -/

theorem sorted_sortProducts (l : List Product) :
    List.Sorted priceLE (sortProducts l) :=
  List.sorted_insertionSort priceLE l

/-- Any ordered pair of the sorted output is relate by the comparator. -/
theorem sortProducts_pair_rel {l : List Product} {a b : Product}
    (h : List.Sublist [a, b] (sortProducts l)) : priceLE a b := by
  have hs := (sorted_sortProducts l).sublist h
  exact List.rel_of_pairwise_cons hs (List.mem_singleton.mpr rfl)

/-- Stability of the sort on the price-less products: they all tie at the
sentinel, so the stable sort keeps their relative order. -/
theorem sortProducts_filter_none (l : List Product) :
    (sortProducts l).filter (fun p => p.price.isNone) =
      l.filter (fun p => p.price.isNone) := by
  have hc : (l.filter (fun p => p.price.isNone)).Pairwise priceLE := by
    apply List.pairwise_of_forall_mem_list
    intro a ha b hb
    have ha2 := (List.mem_filter.mp ha).2
    have hb2 := (List.mem_filter.mp hb).2
    unfold priceLE
    rw [Option.isNone_iff_eq_none] at ha2 hb2
    rw [ha2, hb2]
  have h1 : List.Sublist (l.filter (fun p => p.price.isNone)) (sortProducts l) :=
    List.sublist_insertionSort hc (List.filter_sublist l)
  have h3 : List.Sublist (l.filter (fun p => p.price.isNone))
      ((sortProducts l).filter (fun p => p.price.isNone)) := by
    have h2 := h1.filter (fun p => p.price.isNone)
    rw [List.filter_filter] at h2
    simpa only [Bool.and_self] using h2
  have h4 : ((sortProducts l).filter (fun p => p.price.isNone)).length =
      (l.filter (fun p => p.price.isNone)).length :=
    ((List.perm_insertionSort priceLE l).filter _).length_eq
  exact (h3.eq_of_length h4.symm).symm

/-! ### Claim C6 -/

/-- **C6**: the deduplicator keeps the first occurrence of each key — the
lower-cased name truncated to 50 characters concatenated with the price —
and drops every later product with an already-seen key, the survivors
keeping their input order; on the claim's example the result is the two
products `[Phone Y(50), Phone X(100)]`. -/
theorem dedup_first_occurrence_wins (l : List Product) (k : String) :
    (dedup l []).filter (fun p => dedupKey p == k) =
      (l.filter (fun p => dedupKey p == k)).take 1 ∧
    List.Sublist (dedup l []) l ∧
    deduplicateAndSort [exPhoneX, exPhoneX2, exPhoneY] = [exPhoneY, exPhoneX] ∧
    (deduplicateAndSort [exPhoneX, exPhoneX2, exPhoneY]).length = 2 := by
  refine ⟨?_, dedup_sublist l [], by decide, by decide⟩
  rw [dedup_filter k l []]
  simp

/-! ### Claim C7 -/

/-- **C7 counterexample**: the original claim says every null-priced product
is ordered after every product with a price; with a product priced 1000000
(above the 999999 sentinel) the null-priced product sorts first. -/
theorem sort_null_before_million :
    exNull1.price = none ∧ exMillion.price = some 1000000 ∧
    sortProducts [exNull1, exMillion] = [exNull1, exMillion] := by
  decide

/-- **C7** (amended): the output is sorted ascending by price-or-sentinel;
null-priced products keep their relative input order among themselves; every
product placed after a null-priced one has a falsy price (null or 0) or a
price at least the 999999 sentinel — so a null-priced product is ordered
after every product whose price is nonzero and below the sentinel; the
claim's example `[null, 10, null]` sorts to `[10, null, null]`. -/
theorem sort_sentinel_stability (l : List Product) :
    List.Sorted priceLE (sortProducts l) ∧
    (sortProducts l).filter (fun p => p.price.isNone) =
      l.filter (fun p => p.price.isNone) ∧
    (∀ a b m, List.Sublist [a, b] (sortProducts l) → a.price = none →
      b.price = some m → m = 0 ∨ 999999 ≤ m) ∧
    sortProducts [exNull1, exTen, exNull2] = [exTen, exNull1, exNull2] := by
  refine ⟨sorted_sortProducts l, sortProducts_filter_none l, ?_, by decide⟩
  intro a b m hsub ha hb
  have hle := sortProducts_pair_rel hsub
  unfold priceLE at hle
  rw [ha, hb] at hle
  by_cases hm : m = 0
  · exact Or.inl hm
  · right
    simpa [priceOrSentinel, hm] using hle

/-- Witness for C7: the amended theorem applied to concrete lists, with the
pair hypothesis discharged on the tie `[null, 999999]`. -/
theorem sort_sentinel_stability_witness :
    List.Sorted priceLE (sortProducts [exNull1, exTen, exNull2]) ∧
    (sortProducts [exNull1, exTie]).filter (fun p => p.price.isNone) =
      [exNull1] ∧
    ((999999 : Nat) = 0 ∨ 999999 ≤ 999999) ∧
    sortProducts [exNull1, exTen, exNull2] = [exTen, exNull1, exNull2] := by
  have h := sort_sentinel_stability [exNull1, exTie]
  have h0 := sort_sentinel_stability [exNull1, exTen, exNull2]
  refine ⟨h0.1, ?_, ?_, h0.2.2.2⟩
  · exact h.2.1.trans (by decide)
  · refine h.2.2.1 exNull1 exTie 999999 ?_ rfl rfl
    rw [show sortProducts [exNull1, exTie] = [exNull1, exTie] by decide]

/-! ### Claim C10 -/

/-- **C10 counterexample**: the claim says a zero-priced product is ordered
after every positively-priced product; with a product priced 1000000 (above
the sentinel the comparator substitutes for 0) the zero-priced product
sorts first. -/
theorem zero_price_before_million :
    exZero.price = some 0 ∧ exMillion.price = some 1000000 ∧
    sortProducts [exZero, exMillion] = [exZero, exMillion] := by
  decide

/-- **C10** (amended): the comparator substitutes the 999999 sentinel for a
price of exactly 0 (a falsy value), so a zero-priced product is ordered
after every product whose price is nonzero and below the sentinel (instead
of first), while deduplication still uses the literal price 0 in its key
(distinct from the key of a null price). -/
theorem zero_price_sentinel (l : List Product) :
    priceOrSentinel (some 0) = 999999 ∧
    (∀ a b m, List.Sublist [a, b] (sortProducts l) → a.price = some 0 →
      b.price = some m → m = 0 ∨ 999999 ≤ m) ∧
    (∀ p : Product, p.price = some 0 →
      dedupKey p = jsSubstring 50 (jsToLower p.name) ++ "-0") ∧
    (∀ p q : Product, p.name = q.name → p.price = some 0 → q.price = none →
      dedupKey p ≠ dedupKey q) ∧
    sortProducts [exZero, exFive] = [exFive, exZero] := by
  refine ⟨rfl, ?_, ?_, ?_, by decide⟩
  · intro a b m hsub ha hb
    have hle := sortProducts_pair_rel hsub
    unfold priceLE at hle
    rw [ha, hb] at hle
    by_cases hm : m = 0
    · exact Or.inl hm
    · right
      simpa [priceOrSentinel, hm] using hle
  · intro p hp
    rw [dedupKey, hp, String.append_assoc]
    rfl
  · intro p q hname hp hq heq
    have hlen := congrArg String.length heq
    rw [dedupKey, dedupKey, hp, hq, hname] at hlen
    have e1 : (jsPriceString (some 0)).length = 1 := rfl
    have e2 : (jsPriceString (none : Option Nat)).length = 4 := rfl
    simp only [String.length_append, e1, e2] at hlen
    omega

/-- Witness for C10: the amended theorem applied to concrete lists, with the
pair hypothesis discharged on the tie `[0, 999999]`. -/
theorem zero_price_sentinel_witness :
    priceOrSentinel (some 0) = 999999 ∧
    ((999999 : Nat) = 0 ∨ 999999 ≤ 999999) ∧
    dedupKey exZero = jsSubstring 50 (jsToLower exZero.name) ++ "-0" ∧
    dedupKey exZero ≠ dedupKey exZeroNull ∧
    sortProducts [exZero, exFive] = [exFive, exZero] := by
  have h := zero_price_sentinel [exZero, exTie]
  refine ⟨h.1, ?_, h.2.2.1 exZero rfl, h.2.2.2.1 exZero exZeroNull rfl rfl rfl,
    h.2.2.2.2⟩
  refine h.2.1 exZero exTie 999999 ?_ rfl rfl
  rw [show sortProducts [exZero, exTie] = [exZero, exTie] by decide]


/-! ### Retry executor (withRetry, lines 392-421) -/

/-- Character-list startsWith, auxiliary for the transient-error test. -/
def startsWithChars : List Char → List Char → Bool
  | _, [] => true
  | [], _ :: _ => false
  | c :: cs, d :: ds => c == d && startsWithChars cs ds

/-- Character-list substring containment, auxiliary for the transient-error
test. -/
def containsChars : List Char → List Char → Bool
  | [], pat => pat.isEmpty
  | c :: cs, pat => startsWithChars (c :: cs) pat || containsChars cs pat

/-- The transient-error classifier of withRetry (line 403): the regex
test of Protocol error, Connection closed or Timeout against the
error message. -/
def jsTransient (msg : String) : Bool :=
  containsChars msg.data "Protocol error".data ||
    containsChars msg.data "Connection closed".data ||
    containsChars msg.data "Timeout".data

/-- Observable outcome of one withRetry call: the returned value or the
re-raised last error (none models the undefined lastErr of a zero-attempt
call), the backoff delays slept in order (ms), and how many times the
shared browser was torn down and reinitialized for a transient error. -/
structure RetryResult (α : Type) where
  outcome : Except (Option String) α
  delays : List Nat
  reinits : Nat
deriving Repr

/-- The attempt loop of withRetry: attempt index i, remaining attempts,
last error so far. Each failed attempt records its error, reinitializes
the shared browser when the message is transient, and sleeps
500 + i * 200 ms; a success returns at once; exhaustion throws lastErr. -/
def withRetryGo (task : Nat → Except String α) :
    Nat → Nat → Option String → RetryResult α
  | _, 0, lastErr => ⟨Except.error lastErr, [], 0⟩
  | i, r + 1, _ =>
    match task i with
    | Except.ok v => ⟨Except.ok v, [], 0⟩
    | Except.error e =>
      let rest := withRetryGo task (i + 1) r (some e)
      ⟨rest.outcome, (500 + i * 200) :: rest.delays,
        (if jsTransient e then 1 else 0) + rest.reinits⟩

/-- withRetry(scraperFn, query, attempts): the task is abstracted as a
function from the attempt index to that execution's outcome. -/
def withRetry (task : Nat → Except String α) (attempts : Nat) : RetryResult α :=
  withRetryGo task 0 attempts none

/-- Successful run of the attempt loop after m failures, from any start
index, remaining-attempt budget and lastErr accumulator. -/
theorem withRetryGo_spec (task : Nat → Except String α) (v : α) :
    ∀ (m j r : Nat) (le : Option String), m < r →
    (∀ i, i < m → ∃ e, task (j + i) = Except.error e) →
    task (j + m) = Except.ok v →
    (withRetryGo task j r le).outcome = Except.ok v ∧
    (withRetryGo task j r le).delays =
      (List.range m).map (fun i => 500 + (j + i) * 200)
  | 0, j, r, le, hm, _, hsucc => by
    obtain ⟨r, rfl⟩ : ∃ r', r = r' + 1 := ⟨r - 1, by omega⟩
    rw [Nat.add_zero] at hsucc
    rw [withRetryGo, hsucc]
    exact ⟨rfl, rfl⟩
  | m + 1, j, r, le, hm, hfail, hsucc => by
    obtain ⟨r, rfl⟩ : ∃ r', r = r' + 1 := ⟨r - 1, by omega⟩
    obtain ⟨e, he⟩ := hfail 0 (Nat.succ_pos m)
    rw [Nat.add_zero] at he
    have ih := withRetryGo_spec task v m (j + 1) r (some e) (by omega)
      (fun i hi => by
        obtain ⟨e2, he2⟩ := hfail (i + 1) (by omega)
        exact ⟨e2, by rw [show j + 1 + i = j + (i + 1) by omega]; exact he2⟩)
      (by rw [show j + 1 + m = j + (m + 1) by omega]; exact hsucc)
    rw [withRetryGo, he]
    refine ⟨ih.1, ?_⟩
    simp only [ih.2, List.range_succ_eq_map, List.map_cons, List.map_map]
    refine congrArg₂ _ (by omega) ?_
    apply List.map_congr_left
    intro i _
    simp only [Function.comp_apply]
    omega

/-- Exhausted run of the attempt loop: every attempt fails, the outcome is
the error of the final attempt. -/
theorem withRetryGo_exhaust (task : Nat → Except String α) (es : Nat → String) :
    ∀ (r j : Nat) (le : Option String), 1 ≤ r →
    (∀ i, i < r → task (j + i) = Except.error (es (j + i))) →
    (withRetryGo task j r le).outcome = Except.error (some (es (j + r - 1)))
  | 0, j, le, h1, _ => absurd h1 (by omega)
  | 1, j, le, _, hfail => by
    have he := hfail 0 (by omega)
    rw [Nat.add_zero] at he
    rw [withRetryGo, he]
    show (withRetryGo task (j + 1) 0 (some (es j))).outcome = _
    rw [withRetryGo]
    rfl
  | r + 2, j, le, _, hfail => by
    have he := hfail 0 (by omega)
    rw [Nat.add_zero] at he
    have ih := withRetryGo_exhaust task es (r + 1) (j + 1) (some (es j))
      (by omega)
      (fun i hi => by
        rw [show j + 1 + i = j + (i + 1) by omega]
        exact hfail (i + 1) (by omega))
    rw [withRetryGo, he]
    show (withRetryGo task (j + 1) (r + 1) (some (es j))).outcome = _
    rw [ih]
    refine congrArg _ (congrArg _ (congrArg _ ?_))
    omega

/-! ### Claim C4 -/

/-- **C4**: a task failing with a transient error on attempts 0..k-1 and
succeeding on attempt k, run with maxAttempts at least k+1, returns the
success value and sleeps exactly k backoff delays, the i-th being
500 + i * 200 milliseconds. -/
theorem withRetry_success_after_transient_failures
    (task : Nat → Except String α) (k attempts : Nat) (v : α)
    (hk : k + 1 ≤ attempts)
    (hfail : ∀ i, i < k → ∃ e, task i = Except.error e ∧ jsTransient e = true)
    (hsucc : task k = Except.ok v) :
    (withRetry task attempts).outcome = Except.ok v ∧
    (withRetry task attempts).delays =
      (List.range k).map (fun i => 500 + i * 200) := by
  have h := withRetryGo_spec task v k 0 attempts none (by omega)
    (fun i hi => by
      obtain ⟨e, he, _⟩ := hfail i hi
      exact ⟨e, by rw [Nat.zero_add]; exact he⟩)
    (by rw [Nat.zero_add]; exact hsucc)
  refine ⟨h.1, ?_⟩
  show (withRetryGo task 0 attempts none).delays = _
  rw [h.2]
  apply List.map_congr_left
  intro i _
  omega

/-- Witness for C4: one transient Timeout failure then success, two
attempts allowed: value 7 returned after exactly one 500 ms delay. -/
theorem withRetry_success_after_transient_failures_witness :
    (withRetry (fun i => if i = 0 then Except.error "Timeout"
      else Except.ok 7) 2).outcome = Except.ok 7 ∧
    (withRetry (fun i => if i = 0 then Except.error "Timeout"
      else Except.ok 7) 2).delays =
      (List.range 1).map (fun i => 500 + i * 200) := by
  exact withRetry_success_after_transient_failures _ 1 2 7 (by omega)
    (fun i hi => by
      have h0 : i = 0 := by omega
      subst h0
      exact ⟨"Timeout", rfl, by decide⟩)
    rfl

/-! ### Claim C5 -/

/-- **C5**: a task failing on every one of its maxAttempts executions makes
withRetry re-raise the error observed on the final attempt, unchanged. -/
theorem withRetry_exhaustion_raises_last_error
    (task : Nat → Except String α) (es : Nat → String) (attempts : Nat)
    (h1 : 1 ≤ attempts)
    (hfail : ∀ i, i < attempts → task i = Except.error (es i)) :
    (withRetry task attempts).outcome =
      Except.error (some (es (attempts - 1))) := by
  have h := withRetryGo_exhaust task es attempts 0 none h1
    (fun i hi => by rw [Nat.zero_add]; exact hfail i hi)
  rw [withRetry, h]
  refine congrArg _ (congrArg _ (congrArg _ ?_))
  omega

/-- Witness for C5: both of two attempts fail with messages A then B; the
re-raised error is B. -/
theorem withRetry_exhaustion_raises_last_error_witness :
    (withRetry (fun i => (Except.error (if i = 0 then "A" else "B") :
      Except String Nat)) 2).outcome = Except.error (some "B") := by
  have h := withRetry_exhaustion_raises_last_error
    (fun i => (Except.error (if i = 0 then "A" else "B") : Except String Nat))
    (fun i => if i = 0 then "A" else "B") 2 (by omega)
    (fun i _ => rfl)
  exact h

/-! ### Browser session pool (lines 26-140)

The pool is mutated only inside synchronous critical sections (no await
between reading and writing the pool arrays), so it is modelled as a state
machine whose steps are exactly those critical sections: the body of
acquireFromPool, the firing of a waiter's deadline timer, the body of
releaseToPool, the synchronous part of removeBrowserFromPool, and the
completion (successful or failed) of the asynchronous replacement launch
that removeBrowserFromPool spawns. Sessions and waiters are identified by
the order of their creation. -/

/-- One critical section acting on the pool. -/
inductive PoolOp where
  | acquire
  | timeoutFire (w : Nat)
  | release (s : Nat)
  | remove (s : Nat)
  | replaceOk
  | replaceFail
deriving DecidableEq, Repr

/-- State of browserPool plus bookkeeping of the sessions acquirers hold
(checkedOut), the replacement launches in flight (pendingReplacements), and
a log of which waiter was handed which session (served), in order. -/
structure PoolState where
  capacity : Nat
  browsers : List Nat
  available : List Nat
  pending : List Nat
  timers : List Nat
  checkedOut : List Nat
  pendingReplacements : Nat
  served : List (Nat × Nat)
  nextSid : Nat
  nextWid : Nat
deriving DecidableEq, Repr

/-- initializeBrowserPool (lines 26-65): size = max 1 poolSize browsers,
all available, nothing pending. (Launches that fail at startup only make
the initial pool smaller, which weakens no bound proved below.) -/
def initPool (n : Nat) : PoolState :=
  { capacity := max 1 n
    browsers := List.range (max 1 n)
    available := List.range (max 1 n)
    pending := []
    timers := []
    checkedOut := []
    pendingReplacements := 0
    served := []
    nextSid := max 1 n
    nextWid := 0 }

/-- One critical section, exactly as the source performs it:
acquire (67-84) takes the head of available or enqueues a fresh waiter
with a deadline timer; a firing timer (78-82) splices its waiter out and
rejects it; release (121-131) hands the session to the first pending
waiter — clearing that waiter's timer and leaving available untouched — or
else appends it to available; remove (87-119) erases the session from the
bookkeeping arrays whether or not it is present and always spawns one
replacement launch; a successful replacement (95-115) pushes a brand-new
session onto browsers and available and then serves the first pending
waiter, if any, with the head of available. -/
def stepPool (q : PoolState) : PoolOp → PoolState
  | PoolOp.acquire =>
    match q.available with
    | s :: rest =>
      { q with available := rest, checkedOut := q.checkedOut ++ [s] }
    | [] =>
      { q with pending := q.pending ++ [q.nextWid],
               timers := q.timers ++ [q.nextWid],
               nextWid := q.nextWid + 1 }
  | PoolOp.timeoutFire w =>
    if w ∈ q.timers then
      { q with pending := q.pending.erase w, timers := q.timers.erase w }
    else q
  | PoolOp.release s =>
    match q.pending with
    | w :: rest =>
      { q with pending := rest, timers := q.timers.erase w,
               served := q.served ++ [(w, s)] }
    | [] =>
      { q with available := q.available ++ [s],
               checkedOut := q.checkedOut.erase s }
  | PoolOp.remove s =>
    { q with browsers := q.browsers.erase s,
             available := q.available.erase s,
             checkedOut := q.checkedOut.erase s,
             pendingReplacements := q.pendingReplacements + 1 }
  | PoolOp.replaceOk =>
    let q2 := { q with browsers := q.browsers ++ [q.nextSid],
                       available := q.available ++ [q.nextSid],
                       nextSid := q.nextSid + 1,
                       pendingReplacements := q.pendingReplacements - 1 }
    match q2.pending with
    | [] => q2
    | w :: rest =>
      match q2.available with
      | [] => q2
      | s :: av =>
        { q2 with pending := rest, timers := q2.timers.erase w,
                  available := av, checkedOut := q2.checkedOut ++ [s],
                  served := q2.served ++ [(w, s)] }
  | PoolOp.replaceFail =>
    { q with pendingReplacements := q.pendingReplacements - 1 }

/-- Run a sequence of critical sections. -/
def runPool (q : PoolState) : List PoolOp → PoolState
  | [] => q
  | op :: ops => runPool (stepPool q op) ops

/-- Proper use of the pool, as the source exercises it: release and remove
are called by the holder of a checked-out session, and each completed
replacement launch corresponds to one spawned by remove. acquire and timer
expiry are unconstrained. -/
def legalOp (q : PoolState) : PoolOp → Bool
  | PoolOp.release s => decide (s ∈ q.checkedOut)
  | PoolOp.remove s => decide (s ∈ q.checkedOut)
  | PoolOp.replaceOk => decide (0 < q.pendingReplacements)
  | PoolOp.replaceFail => decide (0 < q.pendingReplacements)
  | _ => true

/-- A whole sequence of critical sections is proper use. -/
def legalRun (q : PoolState) : List PoolOp → Bool
  | [] => true
  | op :: ops => legalOp q op && legalRun (stepPool q op) ops

/-! ### Waiter FIFO discipline (claim C2) -/

/-- Waiter bookkeeping invariant: every pending waiter has exactly its one
deadline timer, waiter ids in the service log and the pending queue are
strictly increasing (so the queue is ordered by arrival and everything
already served arrived before everything still pending), and all of them
were issued before nextWid. -/
def WaiterInv (q : PoolState) : Prop :=
  q.timers = q.pending ∧
  List.Pairwise (· < ·) (q.served.map Prod.fst ++ q.pending) ∧
  ∀ w ∈ q.served.map Prod.fst ++ q.pending, w < q.nextWid

theorem waiterInv_init (n : Nat) : WaiterInv (initPool n) := by
  refine ⟨rfl, ?_, ?_⟩ <;> simp [initPool]

theorem waiterInv_serve {sv : List (Nat × Nat)} {w s n : Nat} {rest : List Nat}
    (hc : List.Pairwise (· < ·) (sv.map Prod.fst ++ (w :: rest)))
    (hb : ∀ x ∈ sv.map Prod.fst ++ (w :: rest), x < n) :
    List.Pairwise (· < ·) ((sv ++ [(w, s)]).map Prod.fst ++ rest) ∧
    ∀ x ∈ (sv ++ [(w, s)]).map Prod.fst ++ rest, x < n := by
  have he : (sv ++ [(w, s)]).map Prod.fst ++ rest =
      sv.map Prod.fst ++ (w :: rest) := by
    simp
  rw [he]
  exact ⟨hc, hb⟩

theorem waiterInv_step (q : PoolState) (op : PoolOp) (h : WaiterInv q) :
    WaiterInv (stepPool q op) := by
  obtain ⟨ht, hc, hb⟩ := h
  cases op with
  | acquire =>
    cases hav : q.available with
    | cons s rest =>
      simp only [stepPool, hav]
      exact ⟨ht, hc, hb⟩
    | nil =>
      simp only [stepPool, hav]
      refine ⟨?_, ?_, ?_⟩
      · show q.timers ++ [q.nextWid] = q.pending ++ [q.nextWid]
        rw [ht]
      · show List.Pairwise (· < ·)
          (q.served.map Prod.fst ++ (q.pending ++ [q.nextWid]))
        rw [show q.served.map Prod.fst ++ (q.pending ++ [q.nextWid]) =
            (q.served.map Prod.fst ++ q.pending) ++ [q.nextWid] from
          (List.append_assoc _ _ _).symm]
        rw [List.pairwise_append]
        refine ⟨hc, List.pairwise_singleton _ _, ?_⟩
        intro a ha b hbm
        rw [List.mem_singleton] at hbm
        subst hbm
        exact hb a ha
      · show ∀ x ∈ q.served.map Prod.fst ++ (q.pending ++ [q.nextWid]),
          x < q.nextWid + 1
        intro x hx
        simp only [List.mem_append, List.mem_singleton] at hx
        rcases hx with hx | hx | hx
        · exact Nat.lt_succ_of_lt (hb x (List.mem_append_left _ hx))
        · exact Nat.lt_succ_of_lt (hb x (List.mem_append_right _ hx))
        · omega
  | timeoutFire w =>
    by_cases hw : w ∈ q.timers
    · simp only [stepPool, if_pos hw]
      refine ⟨?_, ?_, ?_⟩
      · show q.timers.erase w = q.pending.erase w
        rw [ht]
      · show List.Pairwise (· < ·) (q.served.map Prod.fst ++ q.pending.erase w)
        refine hc.sublist ?_
        exact (List.erase_sublist w q.pending).append_left _
      · show ∀ x ∈ q.served.map Prod.fst ++ q.pending.erase w, x < q.nextWid
        intro x hx
        refine hb x ?_
        rcases List.mem_append.mp hx with hx | hx
        · exact List.mem_append_left _ hx
        · exact List.mem_append_right _ (List.mem_of_mem_erase hx)
    · simp only [stepPool, if_neg hw]
      exact ⟨ht, hc, hb⟩
  | release s =>
    cases hp : q.pending with
    | nil =>
      simp only [stepPool, hp]
      rw [hp] at ht hc hb
      exact ⟨ht, hc, hb⟩
    | cons w rest =>
      simp only [stepPool, hp]
      rw [hp] at ht hc hb
      have hs := waiterInv_serve (s := s) hc hb
      refine ⟨?_, hs.1, hs.2⟩
      show q.timers.erase w = rest
      rw [ht, List.erase_cons_head]
  | remove s =>
    simp only [stepPool]
    exact ⟨ht, hc, hb⟩
  | replaceOk =>
    simp only [stepPool]
    cases hp : q.pending with
    | nil =>
      simp only [hp]
      rw [hp] at ht hc hb
      exact ⟨ht, hc, hb⟩
    | cons w rest =>
      simp only [hp]
      cases hav : q.available ++ [q.nextSid] with
      | nil =>
        rw [hp] at ht hc hb
        exact ⟨ht, hc, hb⟩
      | cons s2 av =>
        rw [hp] at ht hc hb
        have hs := waiterInv_serve (s := s2) hc hb
        refine ⟨?_, hs.1, hs.2⟩
        show q.timers.erase w = rest
        rw [ht, List.erase_cons_head]
  | replaceFail =>
    simp only [stepPool]
    exact ⟨ht, hc, hb⟩

theorem waiterInv_run : ∀ (ops : List PoolOp) (q : PoolState),
    WaiterInv q → WaiterInv (runPool q ops)
  | [], _, h => h
  | op :: ops, q, h => waiterInv_run ops (stepPool q op) (waiterInv_step q op h)

/-! ### Claim C2 -/

/-- **C2**: in every reachable pool state, waiters already served arrived in
increasing order and before every still-pending waiter (so no later
acquirer is ever served while an earlier one is still pending); when a
waiter is pending, release hands the session directly to the
longest-waiting entry — the head of the queue, whose id is minimal — and
cancels that waiter's deadline timer, leaving the available queue
untouched; only when no waiter is pending does release append the session
to the available queue. -/
theorem pool_release_serves_fifo (n : Nat) (ops : List PoolOp) (s : Nat) :
    List.Pairwise (· < ·)
      ((runPool (initPool n) ops).served.map Prod.fst) ∧
    (∀ p ∈ (runPool (initPool n) ops).served,
      ∀ w ∈ (runPool (initPool n) ops).pending, p.1 < w) ∧
    (∀ w rest, (runPool (initPool n) ops).pending = w :: rest →
      (∀ w2 ∈ (runPool (initPool n) ops).pending, w ≤ w2) ∧
      stepPool (runPool (initPool n) ops) (PoolOp.release s) =
        { runPool (initPool n) ops with
            pending := rest,
            timers := (runPool (initPool n) ops).timers.erase w,
            served := (runPool (initPool n) ops).served ++ [(w, s)] } ∧
      w ∉ (stepPool (runPool (initPool n) ops) (PoolOp.release s)).timers) ∧
    ((runPool (initPool n) ops).pending = [] →
      stepPool (runPool (initPool n) ops) (PoolOp.release s) =
        { runPool (initPool n) ops with
            available := (runPool (initPool n) ops).available ++ [s],
            checkedOut := (runPool (initPool n) ops).checkedOut.erase s }) := by
  obtain ⟨ht, hc, hb⟩ := waiterInv_run ops (initPool n) (waiterInv_init n)
  have hsplit := List.pairwise_append.mp hc
  refine ⟨hsplit.1, ?_, ?_, ?_⟩
  · intro p hp w hw
    exact hsplit.2.2 p.1 (List.mem_map_of_mem Prod.fst hp) w hw
  · intro w rest hp
    have hpw : List.Pairwise (· < ·) (w :: rest) := by
      rw [← hp]
      exact hsplit.2.1
    refine ⟨?_, ?_, ?_⟩
    · intro w2 hw2
      rw [hp, List.mem_cons] at hw2
      rcases hw2 with rfl | hw2
      · exact Nat.le_refl _
      · exact Nat.le_of_lt (List.rel_of_pairwise_cons hpw hw2)
    · simp only [stepPool, hp]
    · simp only [stepPool, hp]
      show w ∉ (runPool (initPool n) ops).timers.erase w
      rw [ht, hp, List.erase_cons_head]
      exact fun hmem => Nat.lt_irrefl w (List.rel_of_pairwise_cons hpw hmem)
  · intro hp
    simp only [stepPool, hp]

/-- Witness for C2: pool of one browser, two acquirers; the second becomes
waiter 0, and releasing session 0 serves exactly that waiter, cancels its
timer, and leaves the available queue untouched. -/
theorem pool_release_serves_fifo_witness :
    (runPool (initPool 1) [PoolOp.acquire, PoolOp.acquire]).pending = [0] ∧
    (∀ w2 ∈ (runPool (initPool 1) [PoolOp.acquire, PoolOp.acquire]).pending,
      0 ≤ w2) ∧
    stepPool (runPool (initPool 1) [PoolOp.acquire, PoolOp.acquire])
        (PoolOp.release 0) =
      { runPool (initPool 1) [PoolOp.acquire, PoolOp.acquire] with
          pending := [],
          timers := (runPool (initPool 1)
            [PoolOp.acquire, PoolOp.acquire]).timers.erase 0,
          served := (runPool (initPool 1)
            [PoolOp.acquire, PoolOp.acquire]).served ++ [(0, 0)] } ∧
    0 ∉ (stepPool (runPool (initPool 1) [PoolOp.acquire, PoolOp.acquire])
      (PoolOp.release 0)).timers := by
  have hp : (runPool (initPool 1) [PoolOp.acquire, PoolOp.acquire]).pending =
      [0] := by decide
  have h := (pool_release_serves_fifo 1 [PoolOp.acquire, PoolOp.acquire]
    0).2.2.1 0 [] hp
  exact ⟨hp, h.1, h.2.1, h.2.2⟩

/-! ### Pool size bookkeeping (claim C3) -/

/-- Session bookkeeping invariant under proper use: the available queue and
the set of checked-out sessions are duplicate-free, disjoint, and contained
in the browsers array; the browsers array is duplicate-free, holds only
already-issued session ids, and together with the in-flight replacement
launches never exceeds the configured capacity. -/
def SizeInv (q : PoolState) : Prop :=
  q.available.Nodup ∧
  q.checkedOut.Nodup ∧
  (∀ x ∈ q.available, x ∉ q.checkedOut) ∧
  (∀ x ∈ q.available, x ∈ q.browsers) ∧
  (∀ x ∈ q.checkedOut, x ∈ q.browsers) ∧
  q.browsers.Nodup ∧
  (∀ x ∈ q.browsers, x < q.nextSid) ∧
  q.browsers.length + q.pendingReplacements ≤ q.capacity

theorem sizeInv_init (n : Nat) : SizeInv (initPool n) := by
  refine ⟨?_, ?_, ?_, ?_, ?_, ?_, ?_, ?_⟩ <;>
    simp [initPool, List.nodup_range, List.mem_range]

theorem sizeInv_step (q : PoolState) (op : PoolOp)
    (hl : legalOp q op = true) (h : SizeInv q) : SizeInv (stepPool q op) := by
  obtain ⟨hA, hC, hD, hAB, hCB, hB, hS, hL⟩ := h
  cases op with
  | acquire =>
    cases hav : q.available with
    | nil =>
      simp only [stepPool, hav]
      exact ⟨by rw [hav] at hA; exact hA, hC, by rw [hav] at hD; exact hD,
        by rw [hav] at hAB; exact hAB, hCB, hB, hS, hL⟩
    | cons s rest =>
      simp only [stepPool, hav]
      rw [hav] at hA hD hAB
      have hsrest := List.nodup_cons.mp hA
      refine ⟨hsrest.2, ?_, ?_, ?_, ?_, hB, hS, hL⟩
      · refine hC.append (List.nodup_singleton s) ?_
        intro x hx hx2
        rw [List.mem_singleton] at hx2
        subst hx2
        exact hD x (List.mem_cons_self _ _) hx
      · intro x hx hx2
        rw [List.mem_append, List.mem_singleton] at hx2
        rcases hx2 with hx2 | hx2
        · exact hD x (List.mem_cons_of_mem _ hx) hx2
        · subst hx2
          exact hsrest.1 hx
      · intro x hx
        exact hAB x (List.mem_cons_of_mem _ hx)
      · intro x hx
        rw [List.mem_append, List.mem_singleton] at hx
        rcases hx with hx | hx
        · exact hCB x hx
        · subst hx
          exact hAB x (List.mem_cons_self _ _)
  | timeoutFire w =>
    by_cases hw : w ∈ q.timers
    · simp only [stepPool, if_pos hw]
      exact ⟨hA, hC, hD, hAB, hCB, hB, hS, hL⟩
    · simp only [stepPool, if_neg hw]
      exact ⟨hA, hC, hD, hAB, hCB, hB, hS, hL⟩
  | release s =>
    have hsmem : s ∈ q.checkedOut := of_decide_eq_true hl
    cases hp : q.pending with
    | cons w rest =>
      simp only [stepPool, hp]
      exact ⟨hA, hC, hD, hAB, hCB, hB, hS, hL⟩
    | nil =>
      simp only [stepPool, hp]
      refine ⟨?_, hC.erase s, ?_, ?_, ?_, hB, hS, hL⟩
      · refine hA.append (List.nodup_singleton s) ?_
        intro x hx hx2
        rw [List.mem_singleton] at hx2
        subst hx2
        exact hD x hx hsmem
      · intro x hx hx2
        rw [List.mem_append, List.mem_singleton] at hx
        rcases hx with hx | hx
        · exact hD x hx (List.mem_of_mem_erase hx2)
        · subst hx
          exact ((hC.mem_erase_iff).mp hx2).1 rfl
      · intro x hx
        rw [List.mem_append, List.mem_singleton] at hx
        rcases hx with hx | hx
        · exact hAB x hx
        · subst hx
          exact hCB x hsmem
      · intro x hx
        exact hCB x (List.mem_of_mem_erase hx)
  | remove s =>
    have hsmem : s ∈ q.checkedOut := of_decide_eq_true hl
    simp only [stepPool]
    refine ⟨hA.erase s, hC.erase s, ?_, ?_, ?_, hB.erase s, ?_, ?_⟩
    · intro x hx hx2
      exact hD x (List.mem_of_mem_erase hx) (List.mem_of_mem_erase hx2)
    · intro x hx
      rw [hA.mem_erase_iff] at hx
      rw [hB.mem_erase_iff]
      exact ⟨hx.1, hAB x hx.2⟩
    · intro x hx
      rw [hC.mem_erase_iff] at hx
      rw [hB.mem_erase_iff]
      exact ⟨hx.1, hCB x hx.2⟩
    · intro x hx
      exact hS x (List.mem_of_mem_erase hx)
    · show (q.browsers.erase s).length + (q.pendingReplacements + 1) ≤
        q.capacity
      have hsb : s ∈ q.browsers := hCB s hsmem
      rw [List.length_erase_of_mem hsb]
      have hpos : 1 ≤ q.browsers.length := List.length_pos.mpr
        (List.ne_nil_of_mem hsb)
      omega
  | replaceOk =>
    have hrepl : 0 < q.pendingReplacements := of_decide_eq_true hl
    have hnid : q.nextSid ∉ q.browsers := fun hmem =>
      Nat.lt_irrefl _ (hS _ hmem)
    have hnidA : q.nextSid ∉ q.available := fun hmem => hnid (hAB _ hmem)
    have hnidC : q.nextSid ∉ q.checkedOut := fun hmem => hnid (hCB _ hmem)
    have hA2 : (q.available ++ [q.nextSid]).Nodup :=
      hA.append (List.nodup_singleton _) (by
        intro x hx hx2
        rw [List.mem_singleton] at hx2
        subst hx2
        exact hnidA hx)
    have hB2 : (q.browsers ++ [q.nextSid]).Nodup :=
      hB.append (List.nodup_singleton _) (by
        intro x hx hx2
        rw [List.mem_singleton] at hx2
        subst hx2
        exact hnid hx)
    have hD2 : ∀ x ∈ q.available ++ [q.nextSid], x ∉ q.checkedOut := by
      intro x hx
      rw [List.mem_append, List.mem_singleton] at hx
      rcases hx with hx | hx
      · exact hD x hx
      · subst hx
        exact hnidC
    have hAB2 : ∀ x ∈ q.available ++ [q.nextSid], x ∈ q.browsers ++ [q.nextSid] := by
      intro x hx
      rw [List.mem_append, List.mem_singleton] at hx
      rw [List.mem_append, List.mem_singleton]
      rcases hx with hx | hx
      · exact Or.inl (hAB x hx)
      · exact Or.inr hx
    have hCB2 : ∀ x ∈ q.checkedOut, x ∈ q.browsers ++ [q.nextSid] := by
      intro x hx
      exact List.mem_append_left _ (hCB x hx)
    have hS2 : ∀ x ∈ q.browsers ++ [q.nextSid], x < q.nextSid + 1 := by
      intro x hx
      rw [List.mem_append, List.mem_singleton] at hx
      rcases hx with hx | hx
      · exact Nat.lt_succ_of_lt (hS x hx)
      · omega
    have hL2 : (q.browsers ++ [q.nextSid]).length +
        (q.pendingReplacements - 1) ≤ q.capacity := by
      rw [List.length_append, List.length_singleton]
      omega
    simp only [stepPool]
    cases hp : q.pending with
    | nil =>
      simp only [hp]
      exact ⟨hA2, hC, hD2, hAB2, hCB2, hB2, hS2, hL2⟩
    | cons w rest =>
      simp only [hp]
      cases hav : q.available ++ [q.nextSid] with
      | nil =>
        exact ⟨by rw [hav] at hA2; exact hA2, hC,
          by rw [hav] at hD2; exact hD2, by rw [hav] at hAB2; exact hAB2,
          hCB2, hB2, hS2, hL2⟩
      | cons s2 av =>
        rw [hav] at hA2 hD2 hAB2
        have hs2rest := List.nodup_cons.mp hA2
        refine ⟨hs2rest.2, ?_, ?_, ?_, ?_, hB2, hS2, hL2⟩
        · refine hC.append (List.nodup_singleton s2) ?_
          intro x hx hx2
          rw [List.mem_singleton] at hx2
          subst hx2
          exact hD2 x (List.mem_cons_self _ _) hx
        · intro x hx hx2
          rw [List.mem_append, List.mem_singleton] at hx2
          rcases hx2 with hx2 | hx2
          · exact hD2 x (List.mem_cons_of_mem _ hx) hx2
          · subst hx2
            exact hs2rest.1 hx
        · intro x hx
          exact hAB2 x (List.mem_cons_of_mem _ hx)
        · intro x hx
          rw [List.mem_append, List.mem_singleton] at hx
          rcases hx with hx | hx
          · exact hCB2 x hx
          · subst hx
            exact hAB2 x (List.mem_cons_self _ _)
  | replaceFail =>
    simp only [stepPool]
    refine ⟨hA, hC, hD, hAB, hCB, hB, hS, ?_⟩
    show q.browsers.length + (q.pendingReplacements - 1) ≤ q.capacity
    omega

theorem sizeInv_run : ∀ (ops : List PoolOp) (q : PoolState),
    legalRun q ops = true → SizeInv q → SizeInv (runPool q ops)
  | [], _, _, h => h
  | op :: ops, q, hl, h => by
    rw [legalRun, Bool.and_eq_true] at hl
    exact sizeInv_run ops (stepPool q op) hl.2 (sizeInv_step q op hl.1 h)

/-! ### Claim C3 -/

/-- **C3 counterexample**: remove called on a session not in the pool's
bookkeeping (session 99, pool of capacity 1) still launches a replacement
unconditionally; once it completes, available alone holds two sessions,
exceeding the configured capacity. -/
theorem pool_capacity_exceeded_by_foreign_remove :
    (runPool (initPool 1) [PoolOp.remove 99, PoolOp.replaceOk]).capacity
      = 1 ∧
    (runPool (initPool 1)
        [PoolOp.remove 99, PoolOp.replaceOk]).available.length +
      (runPool (initPool 1)
        [PoolOp.remove 99, PoolOp.replaceOk]).checkedOut.length = 2 := by
  decide

/-- **C3** (amended): provided remove and release are invoked — as the
source does — only by the holder of a checked-out session, and each
completed replacement launch corresponds to one spawned by a remove, then
at no observable instant between critical sections does the number of
checked-out sessions plus the number of available sessions exceed the
configured capacity. (Without that proviso the claim fails: remove on a
session outside the bookkeeping still launches a replacement, see the
counterexample.) -/
theorem pool_capacity_invariant_legal (n : Nat) (ops : List PoolOp)
    (h : legalRun (initPool n) ops = true) :
    (runPool (initPool n) ops).available.length +
      (runPool (initPool n) ops).checkedOut.length ≤
      (runPool (initPool n) ops).capacity := by
  obtain ⟨hA, hC, hD, hAB, hCB, hB, hS, hL⟩ :=
    sizeInv_run ops (initPool n) h (sizeInv_init n)
  have hnd : ((runPool (initPool n) ops).available ++
      (runPool (initPool n) ops).checkedOut).Nodup :=
    hA.append hC hD
  have hsub : (runPool (initPool n) ops).available ++
      (runPool (initPool n) ops).checkedOut ⊆
      (runPool (initPool n) ops).browsers := by
    intro x hx
    rcases List.mem_append.mp hx with hx | hx
    · exact hAB x hx
    · exact hCB x hx
  have hlen := (hnd.subperm hsub).length_le
  rw [List.length_append] at hlen
  omega

/-- Witness for C3: a proper acquire/release round-trip on a pool of two
browsers keeps checked-out plus available within capacity. -/
theorem pool_capacity_invariant_legal_witness :
    legalRun (initPool 2) [PoolOp.acquire, PoolOp.release 0] = true ∧
    (runPool (initPool 2) [PoolOp.acquire, PoolOp.release 0]).available.length +
      (runPool (initPool 2)
        [PoolOp.acquire, PoolOp.release 0]).checkedOut.length ≤
      (runPool (initPool 2) [PoolOp.acquire, PoolOp.release 0]).capacity := by
  have hl : legalRun (initPool 2) [PoolOp.acquire, PoolOp.release 0] = true := by
    decide
  exact ⟨hl, pool_capacity_invariant_legal 2 _ hl⟩

/-! ### Scrape orchestrator and HTTP route (lines 331-383, 737-934)

The per-site adapters navigate the network inside a browser, so one
adapter execution is abstracted as its observable outcome for the query: a
product list (possibly empty) or a thrown page-level error. -/

deriving instance DecidableEq for Except

inductive Site where
  | amazon
  | flipkart
  | myntra
  | snapdeal
deriving DecidableEq, Repr

/-- The fixed site list of scrapeMultipleSites (line 362), in order. -/
def sites : List Site := [Site.amazon, Site.flipkart, Site.myntra, Site.snapdeal]

/-- Environment of one attempt of the loop in scrapeSiteWithTempBrowser:
whether acquireFromPool(30000) yields a pooled browser within its deadline,
and the page navigation/extraction outcome of the attempt. -/
structure AttemptEnv where
  poolHasBrowser : Bool
  result : Except String (List Product)
deriving Repr

/-- Observable result of one scrapeSiteWithTempBrowser call: the returned
products or thrown error, how many attempts ran, how many disposable
non-pool browsers were launched, and how many pooled browsers were used. -/
structure TempScrapeRun where
  outcome : Except String (List Product)
  attemptsUsed : Nat
  freshLaunches : Nat
  pooledUses : Nat
deriving DecidableEq, Repr

/-- The attempt loop of scrapeSiteWithTempBrowser (lines 746-931): at each
of the two attempts the browser variable is null, so the pool is preferred
whenever it exists and can serve a browser, else a fresh disposable browser
is launched; a successful extraction — even an empty list — returns
immediately; a failure closes or removes the browser and retries; after
the second failure the last error is re-thrown. Link normalization
(lines 897-904) is not modelled: no claim concerns link values. -/
def tempScrapeGo (poolPresent : Bool) (env : Nat → AttemptEnv) :
    Nat → Nat → Nat → Nat → Option String → TempScrapeRun
  | i, 0, fresh, pooled, lastErr =>
    ⟨Except.error (match lastErr with
      | some m => m
      | none => "temp-scrape failed"), i, fresh, pooled⟩
  | i, r + 1, fresh, pooled, _ =>
    let e := env i
    let usePool := poolPresent && e.poolHasBrowser
    let fresh2 := if usePool then fresh else fresh + 1
    let pooled2 := if usePool then pooled + 1 else pooled
    match e.result with
    | Except.ok data => ⟨Except.ok data, i + 1, fresh2, pooled2⟩
    | Except.error msg =>
      tempScrapeGo poolPresent env (i + 1) r fresh2 pooled2 (some msg)

/-- scrapeSiteWithTempBrowser: two attempts starting from attempt 0 with
no browser in hand and no recorded error. -/
def scrapeSiteWithTempBrowser (poolPresent : Bool)
    (env : Nat → AttemptEnv) : TempScrapeRun :=
  tempScrapeGo poolPresent env 0 2 0 0 none

/-- scrapeAmazon (lines 423-545): the function returns at line 492 with the
withRetry result, errors converted to an empty list by the catch; the
temporary fresh-browser fallback block at lines 497-543 sits after that
return and therefore never runs. The Bool records whether the fallback
block ran. -/
def scrapeAmazon (retryOutcome : Except String (List Product)) :
    List Product × Bool :=
  (match retryOutcome with
    | Except.ok l => l
    | Except.error _ => [], false)

/-- The per-site loop of scrapeMultipleSites (lines 360-383): each site's
temp-browser scrape runs inside try/catch; a thrown error only logs and the
loop continues; a non-empty result is appended to the aggregate. -/
def gatherSites (outcome : Site → Except String (List Product)) :
    List Site → List Product → List Product
  | [], acc => acc
  | s :: ss, acc =>
    gatherSites outcome ss (match outcome s with
      | Except.ok l => if 0 < l.length then acc ++ l else acc
      | Except.error _ => acc)

/-- scrapeMultipleSites: gather all sites then deduplicate and sort. -/
def scrapeMultipleSites (outcome : Site → Except String (List Product)) :
    List Product :=
  deduplicateAndSort (gatherSites outcome sites [])

/-- JS whitespace test for String.prototype.trim (the characters relevant
to the claims). -/
def jsWhite (c : Char) : Bool :=
  c == ' ' || c == '\t' || c == '\n' || c == '\r'

/-- JS String.prototype.trim: strip leading and trailing whitespace. -/
def jsTrim (s : String) : String :=
  ⟨((s.data.dropWhile jsWhite).reverse.dropWhile jsWhite).reverse⟩

/-- Response of the POST /api/compare-prices route, as far as the claims
observe it: a 400 with an error message, or a 200 with the echoed query and
the result list. -/
inductive Response where
  | badRequest (error : String)
  | ok (query : String) (results : List Product)
deriving DecidableEq, Repr

def statusOf : Response → Nat
  | Response.badRequest _ => 400
  | Response.ok _ _ => 200

/-- The POST /api/compare-prices handler (lines 331-357): a missing, empty
(falsy) or short-after-trim query is rejected with 400 and the fixed error
message; otherwise the orchestrator result is returned with status 200. -/
def comparePricesHandler (query : Option String)
    (outcome : Site → Except String (List Product)) : Response :=
  match query with
  | none => Response.badRequest "Query must be at least 2 characters long"
  | some q =>
    if q = "" ∨ (jsTrim q).length < 2 then
      Response.badRequest "Query must be at least 2 characters long"
    else Response.ok (jsTrim q) (scrapeMultipleSites outcome)


/-! ### Claim C1 -/

/-- **C1** (the code diverges from the claim): an empty non-error pooled
extraction is returned as-is after a single attempt — zero disposable fresh
browsers launched — instead of triggering the fresh-session fallback; after
a pooled failure the second attempt acquires from the pool again instead of
bypassing it; and the fresh-browser fallback block of scrapeAmazon
(lines 497-543) is unreachable dead code behind the return at line 492, so
its fallback never runs for any retry outcome. -/
theorem tempScrape_no_fallback_on_empty :
    scrapeSiteWithTempBrowser true (fun _ => ⟨true, Except.ok []⟩) =
      ⟨Except.ok [], 1, 0, 1⟩ ∧
    scrapeSiteWithTempBrowser true (fun i =>
      if i = 0 then ⟨true, Except.error "Timeout"⟩
      else ⟨true, Except.ok []⟩) = ⟨Except.ok [], 2, 0, 2⟩ ∧
    (∀ r : Except String (List Product), (scrapeAmazon r).2 = false) := by
  refine ⟨by decide, by decide, ?_⟩
  intro r
  cases r <;> rfl

/-! ### Claim C8 -/

/-- The site loop aggregates exactly the per-site successes, an erroring or
empty site contributing nothing while the remaining sites still contribute. -/
theorem gatherSites_eq (outcome : Site → Except String (List Product)) :
    ∀ (ss : List Site) (acc : List Product),
    gatherSites outcome ss acc =
      acc ++ (ss.map (fun s =>
        match outcome s with
        | Except.ok l => l
        | Except.error _ => [])).flatten
  | [], acc => by simp [gatherSites]
  | s :: ss, acc => by
    rw [gatherSites, gatherSites_eq outcome ss]
    cases h : outcome s with
    | ok l =>
      by_cases hl : 0 < l.length
      · simp [h, hl, List.append_assoc]
      · have hnil : l = [] := List.length_eq_zero.mp (by omega)
        simp [h, hl, hnil]
    | error e => simp [h]

/-- **C8**: a valid query always yields a 200 response; every per-site
error is absorbed inside the loop, the other sites still contributing; and
when every adapter yields nothing (empty list or error), the response is a
200 whose result list is empty. -/
theorem compare_prices_always_200 (q : String)
    (outcome : Site → Except String (List Product))
    (hq : 2 ≤ (jsTrim q).length) :
    statusOf (comparePricesHandler (some q) outcome) = 200 ∧
    gatherSites outcome sites [] =
      (sites.map (fun s =>
        match outcome s with
        | Except.ok l => l
        | Except.error _ => [])).flatten ∧
    ((∀ s ∈ sites, outcome s = Except.ok [] ∨
        ∃ e, outcome s = Except.error e) →
      comparePricesHandler (some q) outcome = Response.ok (jsTrim q) []) := by
  have hqe : ¬(q = "" ∨ (jsTrim q).length < 2) := by
    rintro (rfl | hlt)
    · exact absurd hq (by decide)
    · omega
  refine ⟨?_, ?_, ?_⟩
  · simp [comparePricesHandler, hqe, statusOf]
  · rw [gatherSites_eq outcome sites []]
    rw [List.nil_append]
  · intro hall
    have hg : gatherSites outcome sites [] = [] := by
      rw [gatherSites_eq outcome sites [], List.nil_append]
      rw [List.flatten_eq_nil_iff]
      intro l hl
      obtain ⟨s, hs, rfl⟩ := List.mem_map.mp hl
      rcases hall s hs with h | ⟨e, h⟩ <;> rw [h]
    simp only [comparePricesHandler, if_neg hqe]
    rw [scrapeMultipleSites, hg]
    rfl

/-- Witness for C8: the query phone with every adapter returning the empty
list: a 200 response carrying an empty result list. -/
theorem compare_prices_always_200_witness :
    statusOf (comparePricesHandler (some "phone")
      (fun _ => Except.ok [])) = 200 ∧
    comparePricesHandler (some "phone") (fun _ => Except.ok []) =
      Response.ok (jsTrim "phone") [] := by
  have h := compare_prices_always_200 "phone" (fun _ => Except.ok [])
    (by decide)
  exact ⟨h.1, h.2.2 (fun s _ => Or.inl rfl)⟩

/-! ### Claim C9 -/

/-- **C9 counterexample**: the two-character query ab passes the
validation — the route only rejects trimmed queries shorter than 2 — and is
answered with a 200 response, not the claimed 400. -/
theorem two_char_query_accepted :
    comparePricesHandler (some "ab") (fun _ => Except.ok []) =
      Response.ok "ab" [] ∧
    statusOf (comparePricesHandler (some "ab")
      (fun _ => Except.ok [])) = 200 := by
  decide

/-- **C9** (amended): a query whose trimmed length is below 2 — such as the
one-character a — is rejected with 400 and the body error Query must be at
least 2 characters long, while the two-character ab passes validation with
status 200. -/
theorem short_query_rejected
    (outcome outcome2 : Site → Except String (List Product)) :
    comparePricesHandler (some "a") outcome =
      Response.badRequest "Query must be at least 2 characters long" ∧
    statusOf (comparePricesHandler (some "ab") outcome2) = 200 := by
  exact ⟨rfl, rfl⟩

end SalesExt
